import Mathlib

/-!
Verification of the gotestshow event-reduction engine.

This file is a shallow embedding of the Go sources (`processor.go`,
`runner.go`, `display.go`, shared data model) into Lean 4.  Go maps keyed
by strings are modelled as association lists; Go pointers (the
`map[string]*TestResult` / `map[string]*PackageState` stores) are modelled
twice:

* a value-level model (`Store`, `processEvent`) used for claims about the
  observable key-to-value contents of the store — faithful because within
  the processor every value object is reachable through exactly one map key;
* a heap-level model (`HStore`, `hProcessEvent`) with explicit addresses,
  used for claims about aliasing between snapshots returned by
  `GetResults`/`GetPackages` and the live store.

Machine integers (Go `int`) are modelled as `Int` (Go counters here never
approach overflow, and the sources rely on ordinary signed arithmetic such
as `Running--` going negative).  `float64` fields (`Elapsed`) are only ever
copied, never computed with, so they are carried as `Rat`.
-/

namespace GoTestShow

/-! ## Association lists (Go maps) -/

/-- Lookup in an association list; models Go map indexing `m[k]` returning
the zero value test `(v, ok)` as an `Option`. -/
def lookupA {κ α : Type} [BEq κ] : List (κ × α) → κ → Option α
  | [], _ => none
  | (k', v) :: t, k => if k' == k then some v else lookupA t k

/-- Insert-or-replace in an association list; models Go map assignment
`m[k] = v`. -/
def insertA {κ α : Type} [BEq κ] : List (κ × α) → κ → α → List (κ × α)
  | [], k, v => [(k, v)]
  | (k', w) :: t, k, v =>
    if k' == k then (k, v) :: t else (k', w) :: insertA t k v

/-- Update the (first) binding of `k` in place; models mutating the object
a Go map value points to.  Identity when `k` is absent. -/
def updateA {κ α : Type} [BEq κ] : List (κ × α) → κ → (α → α) → List (κ × α)
  | [], _, _ => []
  | (k', v) :: t, k, f =>
    if k' == k then (k', f v) :: t else (k', v) :: updateA t k f

/-! ## Character/string helpers mirroring the Go `strings` package -/

/-- Source `listLeadsWith pre l` is true when `pre` is a leading segment of `l`
(char-level `strings.HasPrefix`). -/
def listLeadsWith : List Char → List Char → Bool
  | [], _ => true
  | _ :: _, [] => false
  | a :: as, b :: bs => a == b && listLeadsWith as bs

/-- Char-level substring occurrence (`strings.Contains`). -/
def listOccurs (needle : List Char) : List Char → Bool
  | [] => listLeadsWith needle []
  | c :: cs => listLeadsWith needle (c :: cs) || listOccurs needle cs

/-- Source `strings.Contains s sub`. -/
def containsSubstr (s sub : String) : Bool :=
  listOccurs sub.toList s.toList

/-- Source `strings.HasPrefix s pre`. -/
def strLeadsWith (s pre : String) : Bool :=
  listLeadsWith pre.toList s.toList

/-- Source `strings.HasSuffix s suf`. -/
def strEndsWith (s suf : String) : Bool :=
  listLeadsWith suf.toList.reverse s.toList.reverse

/-- Source `bytes.Contains line []byte("{")` specialised to a single character. -/
def containsChar (s : String) (c : Char) : Bool :=
  s.toList.any (· == c)

/-- The white-space predicate of Go `unicode.IsSpace` (Latin-1 range plus
the Unicode space separators that matter for text processing). -/
def goIsSpace (c : Char) : Bool :=
  c == ' ' || c == '\t' || c == '\n' || c == '\u000b' || c == '\u000c' ||
  c == '\r' || c == '\u0085' || c == '\u00a0' || c == '\u1680' ||
  ('\u2000' ≤ c && c ≤ '\u200a') ||
  c == '\u2028' || c == '\u2029' || c == '\u202f' || c == '\u205f' ||
  c == '\u3000'

/-- Source `strings.TrimSpace`. -/
def goTrimSpace (s : String) : String :=
  String.mk (((s.toList.dropWhile goIsSpace).reverse.dropWhile goIsSpace).reverse)

/-- Split a char list at the first occurrence of `sep`, if any. -/
def splitChFirst (sep : Char) : List Char → Option (List Char × List Char)
  | [] => none
  | c :: cs =>
    if c == sep then some ([], cs)
    else
      match splitChFirst sep cs with
      | none => none
      | some (a, b) => some (c :: a, b)

/-- Helper for `goSplitN`: produce at most `k + 1` parts. -/
def splitNAux (sep : Char) : Nat → List Char → List (List Char)
  | 0, cs => [cs]
  | k + 1, cs =>
    match splitChFirst sep cs with
    | none => [cs]
    | some (a, b) => a :: splitNAux sep k b

/-- Source `strings.SplitN s sep n` for a single-character separator (`n > 0`). -/
def goSplitN (s : String) (sep : Char) (n : Nat) : List String :=
  match n with
  | 0 => []
  | k + 1 => (splitNAux sep k s.toList).map String.mk

/-- Char-level unlimited split (`strings.Split` with one-char separator). -/
def splitAllChar (sep : Char) : List Char → List (List Char)
  | [] => [[]]
  | c :: cs =>
    if c == sep then [] :: splitAllChar sep cs
    else
      match splitAllChar sep cs with
      | [] => [[c]]
      | h :: t => (c :: h) :: t

/-- Source `strings.Split s "/"`-style split. -/
def goSplitAll (s : String) (sep : Char) : List String :=
  (splitAllChar sep s.toList).map String.mk

/-- Source `strings.Join xs "/"`. -/
def joinSlash : List String → String
  | [] => ""
  | [x] => x
  | x :: xs => x ++ "/" ++ joinSlash xs

/-- The part of `cs` before the first occurrence of `sub`; the whole list
when `sub` does not occur.  Models `s[:strings.Index(s, sub)]` guarded by
`Index != -1`. -/
def cutBeforeAux (sub : List Char) : List Char → List Char
  | [] => []
  | c :: cs =>
    if listLeadsWith sub (c :: cs) then []
    else c :: cutBeforeAux sub cs

/-- Truncate `s` at the first occurrence of `sub` (keep all of `s` when
absent); models the `strings.Index(packageName, " [")` truncation in
`processBuildEvent`. -/
def cutBefore (s sub : String) : String :=
  if containsSubstr s sub then String.mk (cutBeforeAux sub.toList s.toList)
  else s

/-- Acceptance predicate of `fmt.Sscanf(s, "%d", new(int))` returning a nil
error: skip leading spaces (a newline is an error), then an optional sign
followed by at least one decimal digit whose value fits in a 64-bit `int`;
trailing non-digit text is ignored by `Sscanf`. -/
def scanfDAccepts (s : String) : Bool :=
  let cs := s.toList.dropWhile (fun c => goIsSpace c && c != '\n' && c != '\r')
  match cs with
  | [] => false
  | c :: rest =>
    if c == '\n' || c == '\r' then false
    else
      let (neg, digits0) :=
        if c == '-' then (true, rest)
        else if c == '+' then (false, rest) else (false, c :: rest)
      let digits := digits0.takeWhile Char.isDigit
      let val := digits.foldl (fun n d => n * 10 + (d.toNat - '0'.toNat)) 0
      decide (digits ≠ []) &&
        (if neg then decide (val ≤ 2 ^ 63) else decide (val ≤ 2 ^ 63 - 1))

/-! ## Data model (`TestEvent`, `TestResult`, `PackageState`) -/

/-- One `go test -json` record.  `importPath` is the build-phase field read
by `processBuildEvent`. -/
structure TestEvent where
  action : String
  package : String
  test : String
  elapsed : Rat
  output : String
  importPath : String
deriving DecidableEq, Repr

/-- Source `TestResult` from the shared data model. -/
structure TestResult where
  package : String
  test : String
  passed : Bool
  skipped : Bool
  failed : Bool
  elapsed : Rat
  output : List String
  started : Bool
  location : String
  hasSubtest : Bool
deriving DecidableEq, Repr

/-- Source `PackageState` from the shared data model. -/
structure PackageState where
  name : String
  total : Int
  passed : Int
  failed : Int
  skipped : Int
  running : Int
  elapsed : Rat
  output : List String
  individualTestFailed : Int
deriving DecidableEq, Repr

/-- The zero `TestResult` created by `ensureTestResult` before its
`Package`/`Test` fields are filled in. -/
def emptyResult : TestResult :=
  { package := "", test := "", passed := false, skipped := false,
    failed := false, elapsed := 0, output := [], started := false,
    location := "", hasSubtest := false }

/-- Source `&PackageState{Name: name}`. -/
def newPackageState (name : String) : PackageState :=
  { name := name, total := 0, passed := 0, failed := 0, skipped := 0,
    running := 0, elapsed := 0, output := [], individualTestFailed := 0 }

/-! ## Pure aggregation rules from `processor.go` -/

/-- Source `isVCSDomain` (processor.go). -/
def isVCSDomain (s : String) : Bool :=
  s == "github.com" || s == "gitlab.com" || s == "bitbucket.org"

/-- Source `isDomainLike` (processor.go). -/
def isDomainLike (s : String) : Bool :=
  containsSubstr s "." &&
    (strEndsWith s ".com" || strEndsWith s ".org" || strEndsWith s ".net")

/-- The VCS-pattern scan in `getRelativePackagePath`: at index `i` with
remainder `p :: rest`, the Go condition `i+3 < len(parts)` is
`rest.length ≥ 3`, and `parts[i+3:]` is `rest.drop 2`. -/
def vcsScan : List String → Option (List String)
  | [] => none
  | p :: rest =>
    if isVCSDomain p && rest.length ≥ 3 then some (rest.drop 2)
    else vcsScan rest

/-- The domain-pattern scan in `getRelativePackagePath`. -/
def domScan : List String → Option (List String)
  | [] => none
  | p :: rest =>
    if isDomainLike p && rest.length ≥ 1 then some rest
    else domScan rest

/-- Source `getRelativePackagePath` (processor.go). -/
def getRelativePackagePath (fullPackageName : String) : String :=
  let parts := goSplitAll fullPackageName '/'
  if parts.length ≤ 1 then ""
  else
    match vcsScan parts with
    | some tail => joinSlash tail
    | none =>
      match domScan parts with
      | some tail => joinSlash tail
      | none =>
        match parts with
        | [_, b] => b
        | _ => joinSlash (parts.drop (parts.length - 2))

/-- Source `extractFileLocation` (processor.go): suffix check first, then the
`Sscanf` line-number check. -/
def extractFileLocation (output : String) : String :=
  let trimmed := goTrimSpace output
  match goSplitN trimmed ':' 3 with
  | fileName :: lineNum :: _ =>
    if strEndsWith fileName "_test.go" || strEndsWith fileName ".go" then
      if scanfDAccepts lineNum then fileName ++ ":" ++ lineNum else ""
    else ""
  | _ => ""

/-- Source `extractFileLocationWithPackage` (processor.go): the line-number check
comes first and rejects early, then the suffix check and the
package-relative prefixing. -/
def extractFileLocationWithPackage (output packageName : String) : String :=
  let trimmed := goTrimSpace output
  match goSplitN trimmed ':' 3 with
  | fileName :: lineNum :: _ =>
    if !scanfDAccepts lineNum then ""
    else if strEndsWith fileName "_test.go" || strEndsWith fileName ".go" then
      if containsSubstr fileName "/" then fileName ++ ":" ++ lineNum
      else if packageName != "" then
        let rel := getRelativePackagePath packageName
        if rel != "" then rel ++ "/" ++ fileName ++ ":" ++ lineNum
        else fileName ++ ":" ++ lineNum
      else fileName ++ ":" ++ lineNum
    else ""
  | _ => ""

/-- Source `shouldDisplayPackageFailure` (processor.go). -/
def shouldDisplayPackageFailure (pkg : PackageState) : Bool :=
  if pkg.output.any (fun line =>
      let trimmed := goTrimSpace line
      containsSubstr trimmed "[build failed]" ||
      containsSubstr trimmed "build constraints exclude all Go files" ||
      containsSubstr trimmed "no buildable Go source files" ||
      containsSubstr trimmed "syntax error" ||
      containsSubstr trimmed "cannot find package" ||
      containsSubstr trimmed "undefined:") then
    true
  else if pkg.individualTestFailed == 0 && pkg.failed > 0 && pkg.total > 0 then
    true
  else if pkg.total == 0 && pkg.output.length > 0 then
    true
  else false

/-! ## Value-level state store (`DefaultEventProcessor`)

The two Go maps of the store hold pointers, but inside `ProcessEvent` each
pointed-to object is reachable through exactly one key of its map, so the
key-to-value contents evolve exactly as the value-level reduction below.
A `none` result models a Go nil-pointer panic (a test-scope `run`/`pass`/
`fail`/`skip` event whose `Package` is empty, so that the package map was
never initialised for the key). -/

structure Store where
  results : List (String × TestResult)
  packages : List (String × PackageState)
  hasTestsStarted : Bool
deriving DecidableEq, Repr

/-- Source `NewEventProcessor()`. -/
def emptyStore : Store :=
  { results := [], packages := [], hasTestsStarted := false }

/-- Source `ensureTestResult` (processor.go): create the keyed result if absent. -/
def ensureTestResult (key : String) (e : TestEvent) (s : Store) : Store :=
  match lookupA s.results key with
  | some _ => s
  | none =>
    let fresh := { emptyResult with package := e.package, test := e.test }
    { s with results := insertA s.results key fresh }

/-- Source `markParentTestIfSubtest` (processor.go). -/
def markParentTestIfSubtest (e : TestEvent) (s : Store) : Store :=
  if containsSubstr e.test "/" then
    let parentTestName := (goSplitAll e.test '/').headD ""
    let parentKey := e.package ++ "/" ++ parentTestName
    { s with results :=
        updateA s.results parentKey (fun r => { r with hasSubtest := true }) }
  else s

/-- Source `isParentWithSubtests` (processor.go): re-scans the current result keys
for the `package/test/` pattern. -/
def isParentWithSubtests (testName packageName : String)
    (results : List (String × TestResult)) : Bool :=
  if containsSubstr testName "/" then false
  else results.any (fun kv =>
    strLeadsWith kv.1 (packageName ++ "/" ++ testName ++ "/"))

/-- The `TestResult` mutation of `handleTestOutput` (processor.go): append
the output line, and set `Location` from the first matching line only. -/
def handleTestOutput (e : TestEvent) (r : TestResult) : TestResult :=
  let r := { r with output := r.output ++ [e.output] }
  if r.location == "" then
    let location := extractFileLocationWithPackage e.output e.package
    if location != "" then { r with location := location } else r
  else r

/-- The `PackageState` mutation of `handleTestCompletion`: decrement
`Running` unconditionally, and count the outcome unless the test is a
subtest-bearing parent. -/
def completionPkgUpd (action : String) (ipws : Bool)
    (p : PackageState) : PackageState :=
  let p := { p with running := p.running - 1 }
  if action == "pass" then
    if ipws then p else { p with passed := p.passed + 1 }
  else if action == "fail" then
    if ipws then p
    else { p with failed := p.failed + 1,
                  individualTestFailed := p.individualTestFailed + 1 }
  else
    if ipws then p else { p with skipped := p.skipped + 1 }

/-- The `TestResult` mutation of `handleTestCompletion`. -/
def completionResUpd (action : String) (e : TestEvent)
    (r : TestResult) : TestResult :=
  let r := { r with elapsed := e.elapsed }
  if action == "pass" then { r with passed := true }
  else if action == "fail" then { r with failed := true }
  else { r with skipped := true }

/-- Source `processTestEvent` (processor.go).  `none` models the nil-pointer panic
on a `run`/completion event whose package was never initialised (empty
`Package` field). -/
def processTestEvent (e : TestEvent) (s : Store) : Option Store :=
  let key := e.package ++ "/" ++ e.test
  let s := ensureTestResult key e s
  let pkgExists := (lookupA s.packages e.package).isSome
  let s := markParentTestIfSubtest e s
  if e.action == "run" then
    if pkgExists then
      some { s with
        results := updateA s.results key (fun r => { r with started := true }),
        packages := updateA s.packages e.package
          (fun p => { p with running := p.running + 1, total := p.total + 1 }),
        hasTestsStarted := true }
    else none
  else if e.action == "output" then
    some { s with results := updateA s.results key (handleTestOutput e) }
  else if e.action == "pass" || e.action == "fail" || e.action == "skip" then
    if pkgExists then
      let ipws := isParentWithSubtests e.test e.package s.results
      some { s with
        results := updateA s.results key (completionResUpd e.action e),
        packages := updateA s.packages e.package
          (completionPkgUpd e.action ipws) }
    else none
  else
    some s

/-- Source `processPackageEvent` (processor.go).  The package entry always exists
here (initialised by `ProcessEvent` since `Package` is non-empty); `none`
marks the impossible missing-package case. -/
def processPackageEvent (e : TestEvent) (s : Store) : Option Store :=
  match lookupA s.packages e.package with
  | none => none
  | some pkg =>
    if e.action == "output" then
      let f := fun (p : PackageState) => { p with output := p.output ++ [e.output] }
      some { s with packages := updateA s.packages e.package f }
    else if e.action == "pass" then
      let f := fun (p : PackageState) => { p with elapsed := e.elapsed }
      some { s with packages := updateA s.packages e.package f }
    else if e.action == "fail" then
      let pkg := { pkg with elapsed := e.elapsed }
      let key := e.package ++ "/[PACKAGE]"
      let sentinel : TestResult :=
        { package := e.package, test := "[PACKAGE]", passed := false,
          skipped := false, failed := true, elapsed := e.elapsed,
          output := pkg.output, started := false, location := "",
          hasSubtest := false }
      let s := { s with packages := updateA s.packages e.package (fun _ => pkg),
                        results := insertA s.results key sentinel }
      if shouldDisplayPackageFailure pkg then
        let f := fun (p : PackageState) =>
          { p with total := p.total + 1, failed := p.failed + 1 }
        some { s with packages := updateA s.packages e.package f }
      else some s
    else some s

/-- Source `processBuildEvent` (processor.go). -/
def processBuildEvent (e : TestEvent) (s : Store) : Store :=
  if e.importPath == "" then s
  else
    let packageName := cutBefore e.importPath " ["
    let s :=
      if (lookupA s.packages packageName).isSome then s
      else
        let fresh := newPackageState packageName
        { s with packages := insertA s.packages packageName fresh }
    if e.action == "build-output" then
      let g := fun (p : PackageState) => { p with output := p.output ++ [e.output] }
      let s := { s with packages := updateA s.packages packageName g }
      let key := packageName ++ "/[BUILD]"
      let s :=
        match lookupA s.results key with
        | some _ => s
        | none =>
          let fresh :=
            { emptyResult with package := packageName, test := "[BUILD]", failed := true }
          { s with results := insertA s.results key fresh }
      let upd := fun (r : TestResult) =>
        let r := { r with output := r.output ++ [e.output] }
        if r.location == "" then
          let location := extractFileLocationWithPackage e.output packageName
          if location != "" then { r with location := location } else r
        else r
      { s with results := updateA s.results key upd }
    else if e.action == "build-fail" then
      let g := fun (p : PackageState) =>
        { p with failed := p.failed + 1, total := p.total + 1 }
      { s with packages := updateA s.packages packageName g }
    else s

/-- Source `ProcessEvent` (processor.go). -/
def processEvent (e : TestEvent) (s : Store) : Option Store :=
  if e.action == "build-output" || e.action == "build-fail" then
    some (processBuildEvent e s)
  else
    let s :=
      if (lookupA s.packages e.package).isNone && e.package != "" then
        { s with packages :=
            insertA s.packages e.package (newPackageState e.package) }
      else s
    if e.test != "" then processTestEvent e s
    else if e.package != "" then processPackageEvent e s
    else some s

/-- Fold a whole event sequence into the store. -/
def runEvents : List TestEvent → Store → Option Store
  | [], s => some s
  | e :: t, s =>
    match processEvent e s with
    | none => none
    | some s₂ => runEvents t s₂

/-! ## Sample events used in concrete scenarios -/

/-- Build a test-scope event with the given action, package, test, and
output line. -/
def mkEv (a p t o : String) : TestEvent :=
  { action := a, package := p, test := t, elapsed := 0, output := o,
    importPath := "" }

/-- The subtest-exclusion scenario of the spec:
`run(pkg,"P")`, `run(pkg,"P/S")`, `fail(pkg,"P/S")`, `fail(pkg,"P")`. -/
def subtestScenario : List TestEvent :=
  [mkEv "run" "pkg" "P" "", mkEv "run" "pkg" "P/S" "",
   mkEv "fail" "pkg" "P/S" "", mkEv "fail" "pkg" "P" ""]

/-- The location-stickiness scenario: two output events for one test. -/
def stickyScenario : List TestEvent :=
  [mkEv "output" "pkg" "T" "foo_test.go:10: msg",
   mkEv "output" "pkg" "T" "bar_test.go:99: msg2"]

/-! ## Spec-side aggregation predicates -/

/-- The fixed set of build/compile-error marker substrings named by the
spec. -/
def buildErrorMarkers : List String :=
  ["[build failed]", "build constraints exclude all Go files",
   "no buildable Go source files", "syntax error",
   "cannot find package", "undefined:"]

/-- The three-clause displayable-package-failure rule of the spec, written
from the words of the spec for comparison with the source function. -/
def specDisplayableFailure (pkg : PackageState) : Prop :=
  (∃ line ∈ pkg.output,
     buildErrorMarkers.any (fun m => containsSubstr (goTrimSpace line) m) = true) ∨
  (pkg.total = 0 ∧ pkg.output ≠ []) ∨
  (0 < pkg.failed ∧ pkg.individualTestFailed = 0 ∧ 0 < pkg.total)

/-- From the words of the spec: the text "parses as an unsigned integer" (nonempty,
all decimal digits). -/
def isUnsignedIntText (s : String) : Bool :=
  s != "" && s.toList.all Char.isDigit

/-! ## Claim C2: count conservation invariant -/

/-- The counter invariant that actually holds of every reachable package
state: the completed counts plus the still-running count never exceed the
total. -/
def pkgCountInv (p : PackageState) : Prop :=
  p.passed + p.failed + p.skipped + p.running ≤ p.total

/-- pkgCountInv for every package in the store. -/
def StoreCountInv (s : Store) : Prop :=
  ∀ kv ∈ s.packages, pkgCountInv kv.2

/-- The store reached by the subtest scenario, used to instantiate the
amended C2 theorem. -/
def c2SampleStore : Store :=
  (runEvents subtestScenario emptyStore).getD emptyStore

/-- The "pkg" package of c2SampleStore. -/
def c2SamplePkg : PackageState :=
  (lookupA c2SampleStore.packages "pkg").getD (newPackageState "")

/-! ## Claim C5: the not-JSON input protocol (Runner.processInput) -/

/-- Runner.processInput (runner.go), abstracted over the JSON decoder
(json.Unmarshal is a library call; decode l = none models a decode error
on line l).  Returns whether the distinct "not JSON input" error was
raised, together with the events that were folded into the processor.
The Go condition is totalLines == 1, the line non-empty, no valid JSON
seen yet, and the line containing no opening-brace byte; t counts the
lines read before the current one and v is validJSONFound. -/
def processInputAux (decode : String → Option TestEvent) :
    List String → Nat → Bool → Bool × List TestEvent
  | [], _, _ => (false, [])
  | l :: ls, t, v =>
    match decode l with
    | none =>
      if t + 1 == 1 && l != "" && !v && !(containsChar l '{') then (true, [])
      else processInputAux decode ls (t + 1) v
    | some e =>
      let r := processInputAux decode ls (t + 1) true
      (r.1, e :: r.2)

/-- The observable outcome of processInput on a whole stream. -/
def processInputModel (decode : String → Option TestEvent)
    (lines : List String) : Bool × List TestEvent :=
  processInputAux decode lines 0 false

/-- A decoder on which every line fails; models json.Unmarshal on a stream
none of whose lines is valid JSON (such as "" and "garbage"). -/
def failDecode : String → Option TestEvent := fun _ => none

/-- Bookkeeping invariant for the summary logic: every package entry is
stored under its own name, and its failed count is never negative (the
reduction only ever increments Failed). -/
def pkgMeta (kv : String × PackageState) : Prop :=
  kv.2.name = kv.1 ∧ 0 ≤ kv.2.failed

/-- pkgMeta for all entries of the store. -/
def StoreMetaInv (s : Store) : Prop := ∀ kv ∈ s.packages, pkgMeta kv

/-- Summary statistics collected by collectSummaryStats (display.go). -/
structure SummaryStats where
  totalTests : Int
  totalPassed : Int
  totalFailed : Int
  totalSkipped : Int
  hasFailures : Bool
deriving DecidableEq, Repr

/-- The package-failure check shared by collectSummaryStats and
displayPackageSummary: the sentinel name/[PACKAGE] result exists, is
failed, and the package classifies as a displayable failure. -/
def pkgFailDisplayed (name : String) (pkg : PackageState)
    (results : List (String × TestResult)) : Bool :=
  match lookupA results (name ++ "/[PACKAGE]") with
  | some pr => pr.failed && shouldDisplayPackageFailure pkg
  | none => false

/-- One iteration of the collectSummaryStats loop (display.go). -/
def collectStep (results : List (String × TestResult))
    (st : SummaryStats) (kv : String × PackageState) : SummaryStats :=
  let pkg := kv.2
  let st := { st with
              totalTests := st.totalTests + pkg.total,
              totalPassed := st.totalPassed + pkg.passed,
              totalFailed := st.totalFailed + pkg.failed,
              totalSkipped := st.totalSkipped + pkg.skipped }
  let st := if pkg.failed > 0 then { st with hasFailures := true } else st
  if pkgFailDisplayed pkg.name pkg results then { st with hasFailures := true }
  else st

/-- collectSummaryStats (display.go). -/
def collectSummaryStats (packages : List (String × PackageState))
    (results : List (String × TestResult)) : SummaryStats :=
  packages.foldl (collectStep results) ⟨0, 0, 0, 0, false⟩

/-- The exit-code contribution of displayPackageSummary (display.go): 1
when the package is displayed with a failing status, 0 when it is skipped
or healthy. -/
def displayPackageSummaryCode (pkgName : String) (pkg : PackageState)
    (results : List (String × TestResult)) : Nat :=
  let hasPackageFail := pkgFailDisplayed pkgName pkg results
  if pkg.total == 0 && !hasPackageFail then 0
  else if pkg.failed == 0 && !hasPackageFail then 0
  else if pkg.failed > 0 || hasPackageFail then 1 else 0

/-- The exit code of TerminalDisplay.ShowFinalResults (display.go,
interactive path): run the per-package summary loop only when there are
failures, then return 1 iff the loop reported a failure or the total
failed count is positive. -/
def showFinalResultsExit (packages : List (String × PackageState))
    (results : List (String × TestResult)) : Nat :=
  let stats := collectSummaryStats packages results
  let exit1 :=
    if stats.hasFailures then
      packages.foldl (fun ec kv =>
        let code := displayPackageSummaryCode kv.1 kv.2 results
        if code != 0 then code else ec) 0
    else 0
  if exit1 != 0 || stats.totalFailed > 0 then 1 else 0

/-- Runner.Run (runner.go): a "not JSON input" error yields exit code 1;
otherwise the final snapshot is rendered and ShowFinalResults decides the
exit code.  none models a run on which the reduction panicked. -/
def runExitCode (decode : String → Option TestEvent)
    (lines : List String) : Option Nat :=
  let pr := processInputModel decode lines
  if pr.1 then some 1
  else
    match runEvents pr.2 emptyStore with
    | some s => some (showFinalResultsExit s.packages s.results)
    | none => none

/-- A decoder for the C6 witness run: one run and one pass event. -/
def okDecode : String → Option TestEvent := fun l =>
  if l == "r" then some (mkEv "run" "p" "T" "")
  else if l == "ps" then some (mkEv "pass" "p" "T" "")
  else none

/-- The store reached by the C6 witness run. -/
def c6SampleStore : Store :=
  (runEvents (processInputModel okDecode ["r", "ps"]).2 emptyStore).getD emptyStore

/-! ## Heap-level model of the store (pointer semantics)

DefaultEventProcessor holds Go maps from strings to POINTERS;
GetResults/GetPackages copy the top-level map but share the pointed-to
objects.  The model below makes addresses explicit: maps is the heap of
map objects (association lists from string keys to value addresses),
rVals/pVals are the heaps of TestResult/PackageState objects, and
nextAddr is the allocator. -/

structure HStore where
  resultsAddr : Nat
  packagesAddr : Nat
  maps : List (Nat × List (String × Nat))
  rVals : List (Nat × TestResult)
  pVals : List (Nat × PackageState)
  nextAddr : Nat
  hasTestsStarted : Bool
deriving DecidableEq, Repr

/-- Source NewEventProcessor(): two fresh empty map objects. -/
def hEmpty : HStore :=
  { resultsAddr := 0, packagesAddr := 1, maps := [(0, []), (1, [])],
    rVals := [], pVals := [], nextAddr := 2, hasTestsStarted := false }

/-- The contents of the internal results map object. -/
def hResultsMap (s : HStore) : List (String × Nat) :=
  (lookupA s.maps s.resultsAddr).getD []

/-- The contents of the internal packages map object. -/
def hPackagesMap (s : HStore) : List (String × Nat) :=
  (lookupA s.maps s.packagesAddr).getD []

/-- Write one key of the internal results map. -/
def hPutResultsKey (s : HStore) (k : String) (a : Nat) : HStore :=
  { s with maps := insertA s.maps s.resultsAddr (insertA (hResultsMap s) k a) }

/-- Write one key of the internal packages map. -/
def hPutPackagesKey (s : HStore) (k : String) (a : Nat) : HStore :=
  { s with maps := insertA s.maps s.packagesAddr (insertA (hPackagesMap s) k a) }

/-- Allocate a fresh TestResult object. -/
def hAllocR (s : HStore) (v : TestResult) : Nat × HStore :=
  (s.nextAddr,
   { s with rVals := insertA s.rVals s.nextAddr v, nextAddr := s.nextAddr + 1 })

/-- Allocate a fresh PackageState object. -/
def hAllocP (s : HStore) (v : PackageState) : Nat × HStore :=
  (s.nextAddr,
   { s with pVals := insertA s.pVals s.nextAddr v, nextAddr := s.nextAddr + 1 })

/-- Mutate the TestResult object at address a through its pointer. -/
def hUpdR (s : HStore) (a : Nat) (f : TestResult → TestResult) : HStore :=
  { s with rVals := updateA s.rVals a f }

/-- Mutate the PackageState object at address a. -/
def hUpdP (s : HStore) (a : Nat) (f : PackageState → PackageState) : HStore :=
  { s with pVals := updateA s.pVals a f }

/-- Source GetResults (processor.go): allocate a NEW map object and copy
the key-to-pointer entries of the internal results map into it; the
pointed-to TestResult objects are shared, not copied. -/
def hGetResults (s : HStore) : Nat × HStore :=
  (s.nextAddr,
   { s with maps := insertA s.maps s.nextAddr (hResultsMap s),
            nextAddr := s.nextAddr + 1 })

/-- Source GetPackages (processor.go): same copy-the-map, share-the-values
shape for the packages map. -/
def hGetPackages (s : HStore) : Nat × HStore :=
  (s.nextAddr,
   { s with maps := insertA s.maps s.nextAddr (hPackagesMap s),
            nextAddr := s.nextAddr + 1 })

/-- Source ensureTestResult in the heap model: returns the pointer to the
keyed result, allocating it first when absent. -/
def hEnsureTestResult (key : String) (e : TestEvent) (s : HStore) :
    Nat × HStore :=
  match lookupA (hResultsMap s) key with
  | some a => (a, s)
  | none =>
    let av := hAllocR s { emptyResult with package := e.package, test := e.test }
    (av.1, hPutResultsKey av.2 key av.1)

/-- Source markParentTestIfSubtest in the heap model. -/
def hMarkParent (e : TestEvent) (s : HStore) : HStore :=
  if containsSubstr e.test "/" then
    let parentKey := e.package ++ "/" ++ (goSplitAll e.test '/').headD ""
    match lookupA (hResultsMap s) parentKey with
    | some a => hUpdR s a (fun r => { r with hasSubtest := true })
    | none => s
  else s

/-- Source isParentWithSubtests in the heap model. -/
def hIsParentWithSubtests (testName packageName : String) (s : HStore) : Bool :=
  if containsSubstr testName "/" then false
  else (hResultsMap s).any (fun kv =>
    strLeadsWith kv.1 (packageName ++ "/" ++ testName ++ "/"))

/-- Source processTestEvent in the heap model. -/
def hProcessTestEvent (e : TestEvent) (s : HStore) : Option HStore :=
  let key := e.package ++ "/" ++ e.test
  let rs := hEnsureTestResult key e s
  let ra := rs.1
  let s := rs.2
  let pa? := lookupA (hPackagesMap s) e.package
  let s := hMarkParent e s
  if e.action == "run" then
    match pa? with
    | none => none
    | some pa =>
      let s := hUpdR s ra (fun r => { r with started := true })
      let s := hUpdP s pa
        (fun p => { p with running := p.running + 1, total := p.total + 1 })
      some { s with hasTestsStarted := true }
  else if e.action == "output" then
    some (hUpdR s ra (handleTestOutput e))
  else if e.action == "pass" || e.action == "fail" || e.action == "skip" then
    match pa? with
    | none => none
    | some pa =>
      let ipws := hIsParentWithSubtests e.test e.package s
      let s := hUpdR s ra (completionResUpd e.action e)
      some (hUpdP s pa (completionPkgUpd e.action ipws))
  else some s

/-- Source processPackageEvent in the heap model. -/
def hProcessPackageEvent (e : TestEvent) (s : HStore) : Option HStore :=
  match lookupA (hPackagesMap s) e.package with
  | none => none
  | some pa =>
    if e.action == "output" then
      some (hUpdP s pa (fun p => { p with output := p.output ++ [e.output] }))
    else if e.action == "pass" then
      some (hUpdP s pa (fun p => { p with elapsed := e.elapsed }))
    else if e.action == "fail" then
      let s := hUpdP s pa (fun p => { p with elapsed := e.elapsed })
      let pkg := (lookupA s.pVals pa).getD (newPackageState e.package)
      let key := e.package ++ "/[PACKAGE]"
      let sentinel : TestResult :=
        { package := e.package, test := "[PACKAGE]", passed := false,
          skipped := false, failed := true, elapsed := e.elapsed,
          output := pkg.output, started := false, location := "",
          hasSubtest := false }
      let av := hAllocR s sentinel
      let s := hPutResultsKey av.2 key av.1
      if shouldDisplayPackageFailure pkg then
        some (hUpdP s pa
          (fun p => { p with total := p.total + 1, failed := p.failed + 1 }))
      else some s
    else some s

/-- Source processBuildEvent in the heap model. -/
def hProcessBuildEvent (e : TestEvent) (s : HStore) : HStore :=
  if e.importPath == "" then s
  else
    let packageName := cutBefore e.importPath " ["
    let s :=
      match lookupA (hPackagesMap s) packageName with
      | some _ => s
      | none =>
        let av := hAllocP s (newPackageState packageName)
        hPutPackagesKey av.2 packageName av.1
    let pa := (lookupA (hPackagesMap s) packageName).getD 0
    if e.action == "build-output" then
      let s := hUpdP s pa (fun p => { p with output := p.output ++ [e.output] })
      let key := packageName ++ "/[BUILD]"
      let rs :=
        match lookupA (hResultsMap s) key with
        | some a => (a, s)
        | none =>
          let fresh :=
            { emptyResult with package := packageName, test := "[BUILD]", failed := true }
          let av := hAllocR s fresh
          (av.1, hPutResultsKey av.2 key av.1)
      hUpdR rs.2 rs.1 (fun r =>
        let r := { r with output := r.output ++ [e.output] }
        if r.location == "" then
          let location := extractFileLocationWithPackage e.output packageName
          if location != "" then { r with location := location } else r
        else r)
    else if e.action == "build-fail" then
      hUpdP s pa (fun p => { p with failed := p.failed + 1, total := p.total + 1 })
    else s

/-- Source ProcessEvent in the heap model. -/
def hProcessEvent (e : TestEvent) (s : HStore) : Option HStore :=
  if e.action == "build-output" || e.action == "build-fail" then
    some (hProcessBuildEvent e s)
  else
    let s :=
      if (lookupA (hPackagesMap s) e.package).isNone && e.package != "" then
        let av := hAllocP s (newPackageState e.package)
        hPutPackagesKey av.2 e.package av.1
      else s
    if e.test != "" then hProcessTestEvent e s
    else if e.package != "" then hProcessPackageEvent e s
    else some s

/-- What a reader observes for a test key through a snapshot map object:
follow the key-to-pointer table of the snapshot, then dereference the
pointer in the CURRENT heap. -/
def hObserveResult (s : HStore) (snapAddr : Nat) (key : String) :
    Option TestResult :=
  match lookupA s.maps snapAddr with
  | none => none
  | some m =>
    match lookupA m key with
    | none => none
    | some a => lookupA s.rVals a

/-- Address discipline: the two internal map addresses and every allocated
map object lie below the allocation counter. -/
def HWF (s : HStore) : Prop :=
  s.resultsAddr < s.nextAddr ∧ s.packagesAddr < s.nextAddr ∧
  ∀ kv ∈ s.maps, kv.1 < s.nextAddr

/-- s' differs from s only at the two internal map objects: the map heap
agrees everywhere else and the internal addresses are unchanged. -/
def MapsFootprint (s s' : HStore) : Prop :=
  s'.resultsAddr = s.resultsAddr ∧ s'.packagesAddr = s.packagesAddr ∧
  ∀ a, a ≠ s.resultsAddr → a ≠ s.packagesAddr →
    lookupA s'.maps a = lookupA s.maps a

/-- The store reached after one run(p,"T") event in the heap model. -/
def c1Store1 : HStore :=
  (hProcessEvent (mkEv "run" "p" "T" "") hEmpty).getD hEmpty

/-- c1Store1 with a GetResults snapshot taken. -/
def c1Store2 : HStore := (hGetResults c1Store1).2

/-- The snapshot address returned by that GetResults call. -/
def c1SnapAddr : Nat := (hGetResults c1Store1).1

/-- c1Store2 after a further output(p,"T","hello") event. -/
def c1Store3 : HStore :=
  (hProcessEvent (mkEv "output" "p" "T" "hello") c1Store2).getD hEmpty

/-! ## Theorems -/

/-! ## Association-list lemmas -/

theorem lookupA_insertA_self {κ α : Type} [BEq κ] [LawfulBEq κ]
    (m : List (κ × α)) (k : κ) (v : α) :
    lookupA (insertA m k v) k = some v := by
  induction m with
  | nil => simp [insertA, lookupA]
  | cons hd t ih =>
    by_cases h : hd.1 == k
    · simp [insertA, h, lookupA]
    · simpa [insertA, h, lookupA] using ih

theorem lookupA_updateA_self {κ α : Type} [BEq κ] [LawfulBEq κ]
    (m : List (κ × α)) (k : κ) (f : α → α) :
    lookupA (updateA m k f) k = (lookupA m k).map f := by
  induction m with
  | nil => simp [updateA, lookupA]
  | cons hd t ih =>
    by_cases h : hd.1 == k
    · simp [updateA, h, lookupA]
    · simpa [updateA, h, lookupA] using ih

theorem lookupA_isSome_insertA {κ α : Type} [BEq κ] [LawfulBEq κ]
    (m : List (κ × α)) (k : κ) (v : α) :
    (lookupA (insertA m k v) k).isSome := by
  simp [lookupA_insertA_self]

theorem forall_updateA {κ α : Type} [BEq κ] {P : α → Prop}
    (m : List (κ × α)) (k : κ) (f : α → α)
    (hm : ∀ kv ∈ m, P kv.2) (hf : ∀ v, P v → P (f v)) :
    ∀ kv ∈ updateA m k f, P kv.2 := by
  induction m with
  | nil => simp [updateA]
  | cons hd t ih =>
    intro kv hkv
    rw [updateA] at hkv
    by_cases h : hd.1 == k
    · simp only [h, if_pos] at hkv
      rcases List.mem_cons.mp hkv with h1 | h2
      · subst h1; exact hf _ (hm hd (List.mem_cons_self hd t))
      · exact hm kv (List.mem_cons_of_mem hd h2)
    · simp only [h, Bool.false_eq_true, if_neg, not_false_iff] at hkv
      rcases List.mem_cons.mp hkv with h1 | h2
      · subst h1; exact hm hd (List.mem_cons_self hd t)
      · exact ih (fun kv h => hm kv (List.mem_cons_of_mem hd h)) kv h2

theorem forall_insertA {κ α : Type} [BEq κ] {P : α → Prop}
    (m : List (κ × α)) (k : κ) (v : α)
    (hm : ∀ kv ∈ m, P kv.2) (hv : P v) :
    ∀ kv ∈ insertA m k v, P kv.2 := by
  induction m with
  | nil => intro kv hkv; simp [insertA] at hkv; subst hkv; exact hv
  | cons hd t ih =>
    intro kv hkv
    rw [insertA] at hkv
    by_cases h : hd.1 == k
    · simp only [h, if_pos] at hkv
      rcases List.mem_cons.mp hkv with h1 | h2
      · subst h1; exact hv
      · exact hm kv (List.mem_cons_of_mem hd h2)
    · simp only [h, Bool.false_eq_true, if_neg, not_false_iff] at hkv
      rcases List.mem_cons.mp hkv with h1 | h2
      · subst h1; exact hm hd (List.mem_cons_self hd t)
      · exact ih (fun kv h => hm kv (List.mem_cons_of_mem hd h)) kv h2

/-! ## Small facts about the reduction helpers -/

theorem ensureTestResult_packages (key : String) (e : TestEvent) (s : Store) :
    (ensureTestResult key e s).packages = s.packages := by
  rw [ensureTestResult]
  cases lookupA s.results key <;> rfl

theorem markParentTestIfSubtest_packages (e : TestEvent) (s : Store) :
    (markParentTestIfSubtest e s).packages = s.packages := by
  rw [markParentTestIfSubtest]
  split <;> rfl

theorem completionPkgUpd_running (a : String) (i : Bool) (p : PackageState) :
    (completionPkgUpd a i p).running = p.running - 1 := by
  rw [completionPkgUpd]
  split_ifs <;> rfl

/-! ## Claim C3: subtest exclusion -/

/-- C3: after processing run(pkg,"P"), run(pkg,"P/S"), fail(pkg,"P/S"),
fail(pkg,"P") from the empty store, the Failed count of the package is 1
(only the subtest is counted) and the result for "P" has
HasSubtest = true. -/
theorem subtest_exclusion_c3 :
    (runEvents subtestScenario emptyStore).map
      (fun s => ((lookupA s.packages "pkg").map PackageState.failed,
                 (lookupA s.results "pkg/P").map TestResult.hasSubtest))
    = some (some 1, some true) := by decide

/-! ## Claim C4: displayable package failure classification -/

/-- C4: shouldDisplayPackageFailure returns true exactly when one of the
three clauses of the spec holds — a build-error marker in the accumulated
output, a zero-test package with output, or a nonzero failed count with no
individual test failures and a nonzero total; in particular the three
concrete classifications named by the spec hold. -/
theorem package_failure_classification_c4 :
    (∀ pkg : PackageState,
      shouldDisplayPackageFailure pkg = true ↔ specDisplayableFailure pkg) ∧
    shouldDisplayPackageFailure
      { newPackageState "p" with output := ["went wrong"] } = true ∧
    shouldDisplayPackageFailure
      { newPackageState "p" with total := 5, passed := 5 } = false ∧
    shouldDisplayPackageFailure
      { newPackageState "p" with
          total := 1, failed := 1, individualTestFailed := 1 } = false := by
  refine ⟨?_, by decide, by decide, by decide⟩
  intro pkg
  have hshape : ∀ (a b c : Bool),
      (if a then true else if b then true else if c then true else false)
      = (a || b || c) := by decide
  rw [shouldDisplayPackageFailure, hshape]
  simp only [specDisplayableFailure, buildErrorMarkers, Bool.or_eq_true,
    List.any_eq_true, Bool.and_eq_true, decide_eq_true_eq, beq_iff_eq,
    List.any_cons, List.any_nil, Bool.or_false, ← List.length_pos]
  constructor
  · rintro ((h | h) | h)
    · rcases h with ⟨x, hx, hm⟩
      exact Or.inl ⟨x, hx, by tauto⟩
    · exact Or.inr (Or.inr ⟨h.1.2, h.1.1, h.2⟩)
    · exact Or.inr (Or.inl h)
  · rintro (h | h | h)
    · rcases h with ⟨x, hx, hm⟩
      exact Or.inl (Or.inl ⟨x, hx, by tauto⟩)
    · exact Or.inr h
    · exact Or.inl (Or.inr ⟨⟨h.2.1, h.1⟩, h.2.2⟩)

/-! ## Claim C7: location stickiness -/

/-- C7: an output event never overwrites a non-empty Location, and the
two-line scenario foo_test.go:10 then bar_test.go:99 leaves
Location = "foo_test.go:10" (first match wins). -/
theorem location_stickiness_c7 :
    (∀ (e : TestEvent) (r : TestResult), r.location ≠ "" →
      (handleTestOutput e r).location = r.location) ∧
    (runEvents stickyScenario emptyStore).map
      (fun s => (lookupA s.results "pkg/T").map TestResult.location)
    = some (some "foo_test.go:10") := by
  constructor
  · intro e r h
    have hb : (r.location == "") = false := by simpa using h
    rw [handleTestOutput]
    simp [hb]
  · decide

/-- Witness for C7: a result whose location is already set keeps it across
a further output event carrying a different location line. -/
theorem location_stickiness_c7_witness :
    (handleTestOutput (mkEv "output" "pkg" "T" "bar_test.go:99: msg2")
      { emptyResult with location := "foo_test.go:10" }).location
    = "foo_test.go:10" :=
  location_stickiness_c7.1 (mkEv "output" "pkg" "T" "bar_test.go:99: msg2")
    { emptyResult with location := "foo_test.go:10" } (by decide)

/-! ## Claim C8: location extraction -/

/-- C8 as amended: extractFileLocationWithPackage returns a non-empty
location only when the trimmed line splits (on the colon, limit 3) into at
least two parts whose first part ends in _test.go or .go and whose second
part is accepted by the Go integer scan — which also accepts signed
integers; and the two rejection examples of the spec yield the empty
location for every package name. -/
theorem location_extraction_c8 :
    (∀ output packageName : String,
      extractFileLocationWithPackage output packageName ≠ "" →
      ∃ fileName lineNum rest,
        goSplitN (goTrimSpace output) ':' 3 = fileName :: lineNum :: rest ∧
        (strEndsWith fileName "_test.go" || strEndsWith fileName ".go") = true ∧
        scanfDAccepts lineNum = true) ∧
    (∀ pn : String, extractFileLocationWithPackage "not a file location" pn = "") ∧
    (∀ pn : String, extractFileLocationWithPackage "math_test.go:abc: bad" pn = "") := by
  refine ⟨?_, fun pn => rfl, fun pn => rfl⟩
  intro output packageName h
  rw [extractFileLocationWithPackage] at h
  cases hsplit : goSplitN (goTrimSpace output) ':' 3 with
  | nil => rw [hsplit] at h; exact absurd rfl h
  | cons fileName t =>
    cases t with
    | nil => rw [hsplit] at h; exact absurd rfl h
    | cons lineNum rest =>
      rw [hsplit] at h
      have hscan : scanfDAccepts lineNum = true := by
        by_contra hs
        rw [Bool.not_eq_true] at hs
        simp [hs] at h
      have hsuf :
          (strEndsWith fileName "_test.go" || strEndsWith fileName ".go") = true := by
        by_contra hs
        rw [Bool.not_eq_true] at hs
        simp [hscan, hs] at h
      exact ⟨fileName, lineNum, rest, rfl, hsuf, hscan⟩

/-- Witness for C8: a line that does carry a location instantiates the
only-when direction. -/
theorem location_extraction_c8_witness :
    ∃ fileName lineNum rest,
      goSplitN (goTrimSpace "math_test.go:7: want 5") ':' 3
        = fileName :: lineNum :: rest ∧
      (strEndsWith fileName "_test.go" || strEndsWith fileName ".go") = true ∧
      scanfDAccepts lineNum = true :=
  location_extraction_c8.1 "math_test.go:7: want 5" "" (by decide)

/-- Counterexample for C8 as stated: on "math_test.go:-1: boom" the second
split part is "-1", which does not parse as an unsigned integer, yet
extraction returns the non-empty location "math_test.go:-1" (the Go
integer scan accepts a sign). -/
theorem location_extraction_c8_counterexample :
    goSplitN (goTrimSpace "math_test.go:-1: boom") ':' 3
      = ["math_test.go", "-1", " boom"] ∧
    isUnsignedIntText "-1" = false ∧
    extractFileLocationWithPackage "math_test.go:-1: boom" ""
      = "math_test.go:-1" := by decide

/-! ## Claim C10: unconditional Running decrement -/

/-- C10: a test-scope pass/fail/skip event decrements the Running counter
of the owning package by exactly one, with no check that a matching run
was ever seen (a package absent from the map is created with Running = 0
first); consequently a lone completion event from the empty store drives
Running to -1. -/
theorem running_decrement_c10 :
    (∀ (s : Store) (e : TestEvent),
      (e.action = "pass" ∨ e.action = "fail" ∨ e.action = "skip") →
      e.test ≠ "" → e.package ≠ "" →
      ∃ s', processEvent e s = some s' ∧
        ∃ p', lookupA s'.packages e.package = some p' ∧
          p'.running =
            (match lookupA s.packages e.package with
             | some p => p.running
             | none => 0) - 1) ∧
    (runEvents [mkEv "fail" "p" "T" ""] emptyStore).map
      (fun s => (lookupA s.packages "p").map PackageState.running)
    = some (some (-1)) := by
  constructor
  · intro s e ha ht hp
    have hbuild : (e.action == "build-output" || e.action == "build-fail") = false := by
      rcases ha with h | h | h <;> simp [h]
    have htb : (e.test != "") = true := by simpa using ht
    have hcomp : (e.action == "pass" || e.action == "fail" || e.action == "skip") = true := by
      rcases ha with h | h | h <;> simp [h]
    have hrun : (e.action == "run") = false := by
      rcases ha with h | h | h <;> simp [h]
    have hout : (e.action == "output") = false := by
      rcases ha with h | h | h <;> simp [h]
    rw [processEvent, hbuild]
    simp only [Bool.false_eq_true, if_false]
    cases hlk : lookupA s.packages e.package with
    | some p =>
      simp only [hlk, Option.isNone_some, Bool.false_and, Bool.false_eq_true,
        if_false, htb, if_true]
      rw [processTestEvent]
      simp only [hrun, Bool.false_eq_true, if_false, hout, hcomp, if_true,
        ensureTestResult_packages, markParentTestIfSubtest_packages, hlk,
        Option.isSome_some, if_true]
      refine ⟨_, rfl, ?_⟩
      simp only [lookupA_updateA_self, hlk, Option.map_some']
      exact ⟨_, rfl, completionPkgUpd_running _ _ _⟩
    | none =>
      have hpb : (e.package != "") = true := by simpa using hp
      simp only [hlk, Option.isNone_none, Bool.true_and, hpb, if_true, htb]
      rw [processTestEvent]
      simp only [hrun, Bool.false_eq_true, if_false, hout, hcomp, if_true,
        ensureTestResult_packages, markParentTestIfSubtest_packages,
        lookupA_insertA_self, Option.isSome_some, if_true]
      refine ⟨_, rfl, ?_⟩
      simp only [lookupA_updateA_self, lookupA_insertA_self, hlk,
        Option.map_some']
      exact ⟨_, rfl, completionPkgUpd_running _ _ _⟩
  · decide

/-- Witness for C10: the decrement fact applied to a lone fail event on
the empty store. -/
theorem running_decrement_c10_witness :
    ∃ s', processEvent (mkEv "fail" "p" "T" "") emptyStore = some s' ∧
      ∃ p', lookupA s'.packages "p" = some p' ∧
        p'.running =
          (match lookupA emptyStore.packages "p" with
           | some p => p.running
           | none => 0) - 1 :=
  running_decrement_c10.1 emptyStore (mkEv "fail" "p" "T" "")
    (Or.inr (Or.inl rfl)) (by decide) (by decide)

theorem lookupA_mem {κ α : Type} [BEq κ] [LawfulBEq κ]
    {m : List (κ × α)} {k : κ} {v : α}
    (h : lookupA m k = some v) : (k, v) ∈ m := by
  induction m with
  | nil => simp [lookupA] at h
  | cons hd t ih =>
    rw [lookupA] at h
    by_cases hk : hd.1 == k
    · simp only [hk, if_pos] at h
      have h1 : hd.1 = k := by simpa using hk
      have h2 : hd.2 = v := by injection h
      have : hd = (k, v) := by
        cases hd; simp only at h1 h2; rw [h1, h2]
      rw [← this]
      exact List.mem_cons_self _ _
    · simp only [hk, Bool.false_eq_true, if_neg, not_false_iff] at h
      exact List.mem_cons_of_mem _ (ih h)

theorem pkgCountInv_new (name : String) : pkgCountInv (newPackageState name) := by
  simp [pkgCountInv, newPackageState]

theorem pkgCountInv_completionPkgUpd (a : String) (i : Bool) {p : PackageState}
    (h : pkgCountInv p) : pkgCountInv (completionPkgUpd a i p) := by
  rw [completionPkgUpd]
  rw [pkgCountInv] at h
  split_ifs <;> simp only [pkgCountInv] <;> omega

/-- processBuildEvent preserves the counter invariant. -/
theorem processBuildEvent_inv (e : TestEvent) (s : Store)
    (hs : StoreCountInv s) : StoreCountInv (processBuildEvent e s) := by
  rw [processBuildEvent]
  split
  · exact hs
  · have hs1 : StoreCountInv
        (if (lookupA s.packages (cutBefore e.importPath " [")).isSome then s
         else
           { s with
             packages :=
               insertA s.packages (cutBefore e.importPath " [")
                 (newPackageState (cutBefore e.importPath " [")) }) := by
      split
      · exact hs
      · exact forall_insertA _ _ _ hs (pkgCountInv_new _)
    split
    · -- build-output: packages only gain an output line
      intro kv hkv
      revert hkv
      simp only []
      split <;> intro hkv <;>
        exact forall_updateA _ _ _ hs1
          (fun v hv => by simpa [pkgCountInv] using hv) kv hkv
    · split
      · -- build-fail: failed and total both increase
        intro kv hkv
        refine forall_updateA _ _ _ hs1 ?_ kv hkv
        intro v hv
        rw [pkgCountInv] at hv ⊢
        simp only
        omega
      · exact hs1

/-- processEvent preserves the counter invariant. -/
theorem processEvent_inv (e : TestEvent) (s s' : Store)
    (h : processEvent e s = some s') (hs : StoreCountInv s) :
    StoreCountInv s' := by
  rw [processEvent] at h
  split at h
  · injection h with h
    rw [← h]
    exact processBuildEvent_inv e s hs
  · have hs1 : StoreCountInv
        (if (lookupA s.packages e.package).isNone && e.package != "" then
          { s with packages :=
              insertA s.packages e.package (newPackageState e.package) }
         else s) := by
      split
      · exact forall_insertA _ _ _ hs (pkgCountInv_new _)
      · exact hs
    set s₁ := (if (lookupA s.packages e.package).isNone && e.package != "" then
          { s with packages :=
              insertA s.packages e.package (newPackageState e.package) }
         else s) with hs₁def
    clear_value s₁
    split at h
    · rw [processTestEvent] at h
      split at h
      · split at h
        · injection h with h
          rw [← h]
          intro kv hkv
          simp only [markParentTestIfSubtest_packages, ensureTestResult_packages] at hkv
          refine forall_updateA _ _ _ hs1 ?_ kv hkv
          intro v hv
          rw [pkgCountInv] at hv ⊢
          simp only
          omega
        · exact absurd h (by simp)
      · split at h
        · injection h with h
          rw [← h]
          intro kv hkv
          simp only [markParentTestIfSubtest_packages, ensureTestResult_packages] at hkv
          exact hs1 kv hkv
        · split at h
          · split at h
            · injection h with h
              rw [← h]
              intro kv hkv
              simp only [markParentTestIfSubtest_packages, ensureTestResult_packages] at hkv
              refine forall_updateA _ _ _ hs1 ?_ kv hkv
              intro v hv
              exact pkgCountInv_completionPkgUpd _ _ hv
            · exact absurd h (by simp)
          · injection h with h
            rw [← h]
            intro kv hkv
            simp only [markParentTestIfSubtest_packages, ensureTestResult_packages] at hkv
            exact hs1 kv hkv
    · split at h
      · rw [processPackageEvent] at h
        split at h
        · exact absurd h (by simp)
        · rename_i pkg hlk
          have hpkg : pkgCountInv pkg := hs1 _ (lookupA_mem hlk)
          split at h
          · injection h with h
            rw [← h]
            intro kv hkv
            exact forall_updateA _ _ _ hs1
              (fun v hv => by simpa [pkgCountInv] using hv) kv hkv
          · split at h
            · injection h with h
              rw [← h]
              intro kv hkv
              exact forall_updateA _ _ _ hs1
                (fun v hv => by simpa [pkgCountInv] using hv) kv hkv
            · split at h
              · simp only [] at h
                split at h
                · injection h with h
                  rw [← h]
                  intro kv hkv
                  refine forall_updateA _ _ _ ?_ ?_ kv hkv
                  · exact forall_updateA _ _ _ hs1
                      (fun v _ => by simpa [pkgCountInv] using hpkg)
                  · intro v hv
                    rw [pkgCountInv] at hv ⊢
                    simp only
                    omega
                · injection h with h
                  rw [← h]
                  intro kv hkv
                  exact forall_updateA _ _ _ hs1
                    (fun v _ => by simpa [pkgCountInv] using hpkg) kv hkv
              · injection h with h
                rw [← h]
                exact hs1
      · injection h with h
        rw [← h]
        exact hs1

/-- The invariant holds of every store reached from a given invariant
store. -/
theorem runEvents_inv (es : List TestEvent) (s s' : Store)
    (h : runEvents es s = some s') (hs : StoreCountInv s) :
    StoreCountInv s' := by
  induction es generalizing s with
  | nil => rw [runEvents] at h; injection h with h; rw [← h]; exact hs
  | cons e t ih =>
    rw [runEvents] at h
    cases hp : processEvent e s with
    | none => rw [hp] at h; exact absurd h (by simp)
    | some s₂ =>
      rw [hp] at h
      exact ih s₂ h (processEvent_inv e s s₂ hp hs)

/-- C2 as amended: for every store reachable from the empty store,
Passed + Failed + Skipped + Running ≤ Total for every package — hence
Passed + Failed + Skipped ≤ Total whenever Running ≥ 0; the unadorned
inequality of the claim fails once Running goes negative, and equality at
Running = 0 need not hold when a subtest-bearing parent completed. -/
theorem total_conservation_c2_amended (es : List TestEvent) (s : Store)
    (h : runEvents es emptyStore = some s) :
    ∀ kv ∈ s.packages,
      kv.2.passed + kv.2.failed + kv.2.skipped + kv.2.running ≤ kv.2.total :=
  runEvents_inv es emptyStore s h (by intro kv hkv; simp [emptyStore] at hkv)

/-- Counterexample for C2 as stated: a lone fail(p,"T") event (no prior
run) reaches a state where Passed + Failed + Skipped = 1 > 0 = Total, so
the claimed inequality fails on a reachable state. -/
theorem total_conservation_c2_counterexample :
    (runEvents [mkEv "fail" "p" "T" ""] emptyStore).map
      (fun s => (lookupA s.packages "p").map
        (fun p => (p.passed + p.failed + p.skipped, p.total,
                   decide (p.passed + p.failed + p.skipped ≤ p.total))))
    = some (some (1, 0, false)) := by decide

/-- Witness for the amended C2 theorem at the subtest scenario. -/
theorem total_conservation_c2_amended_witness :
    c2SamplePkg.passed + c2SamplePkg.failed + c2SamplePkg.skipped +
      c2SamplePkg.running ≤ c2SamplePkg.total :=
  total_conservation_c2_amended subtestScenario c2SampleStore rfl
    ("pkg", c2SamplePkg) (by decide)

/-- Once past the first line, the "not JSON input" error can never be
raised. -/
theorem processInputAux_later (decode : String → Option TestEvent)
    (ls : List String) (t : Nat) (v : Bool) (ht : 1 ≤ t) :
    (processInputAux decode ls t v).1 = false := by
  induction ls generalizing t v with
  | nil => rw [processInputAux]
  | cons l tl ih =>
    rw [processInputAux]
    cases decode l with
    | none =>
      have hne : (t + 1 == 1) = false := by
        simp only [beq_eq_false_iff_ne, ne_eq]
        omega
      simp only [hne, Bool.false_and, Bool.false_eq_true, if_false]
      exact ih _ _ (by omega)
    | some e =>
      simp only
      exact ih _ _ (by omega)

/-- C5 as amended: the distinct "not JSON input" error is returned iff the
very FIRST line of the stream (not its first non-empty line) is non-empty,
fails to decode, and contains no opening brace; every other failing line
is skipped and processing continues to end of stream. -/
theorem not_json_protocol_c5_amended (decode : String → Option TestEvent)
    (lines : List String) :
    (processInputModel decode lines).1 = true ↔
      (∃ l ls, lines = l :: ls ∧ l ≠ "" ∧ decode l = none ∧
        containsChar l '{' = false) := by
  constructor
  · intro h
    cases lines with
    | nil => rw [processInputModel, processInputAux] at h; exact absurd h (by simp)
    | cons l ls =>
      refine ⟨l, ls, rfl, ?_⟩
      rw [processInputModel, processInputAux] at h
      cases hd : decode l with
      | none =>
        rw [hd] at h
        by_cases hc : (0 + 1 == 1 && l != "" && !false && !(containsChar l '{')) = true
        · simp only [Bool.and_eq_true, bne_iff_ne, ne_eq, Bool.not_eq_true'] at hc
          exact ⟨hc.1.1.2, rfl, hc.2⟩
        · rw [Bool.not_eq_true] at hc
          rw [hc] at h
          simp only [Bool.false_eq_true, if_false] at h
          rw [processInputAux_later decode ls (0 + 1) false (by omega)] at h
          exact absurd h (by simp)
      | some e =>
        rw [hd] at h
        simp only at h
        rw [processInputAux_later decode ls (0 + 1) true (by omega)] at h
        exact absurd h (by simp)
  · rintro ⟨l, ls, rfl, hne, hd, hc⟩
    rw [processInputModel, processInputAux, hd]
    have hcond : (0 + 1 == 1 && l != "" && !false && !(containsChar l '{')) = true := by
      simp [hne, hc]
    rw [hcond]
    rfl

/-- Counterexample for C5 as stated: on the stream ["", "garbage"] with a
decoder failing on both lines, the first NON-empty line "garbage" fails to
decode and has no brace, yet no "not JSON input" error is raised (the code
tests only line number one). -/
theorem not_json_protocol_c5_counterexample :
    (processInputModel failDecode ["", "garbage"]).1 = false ∧
    (List.find? (fun l => l != "") ["", "garbage"]) = some "garbage" ∧
    failDecode "garbage" = none ∧
    containsChar "garbage" '{' = false := by
  refine ⟨?_, by decide, rfl, by decide⟩
  rfl

/-- Witness for the amended C5 theorem: a bad first line raises the error. -/
theorem not_json_protocol_c5_amended_witness :
    (processInputModel failDecode ["garbage", "more"]).1 = true :=
  (not_json_protocol_c5_amended failDecode ["garbage", "more"]).mpr
    ⟨"garbage", ["more"], rfl, by decide, rfl, by decide⟩

/-! ## Claim C6: the exit-code contract -/

theorem forall_updateA' {κ α : Type} [BEq κ] [LawfulBEq κ] {P : κ × α → Prop}
    (m : List (κ × α)) (k : κ) (f : α → α)
    (hm : ∀ kv ∈ m, P kv) (hf : ∀ v, P (k, v) → P (k, f v)) :
    ∀ kv ∈ updateA m k f, P kv := by
  induction m with
  | nil => simp [updateA]
  | cons hd t ih =>
    intro kv hkv
    rw [updateA] at hkv
    by_cases h : hd.1 == k
    · have hk : hd.1 = k := by simpa using h
      simp only [h, if_pos] at hkv
      rcases List.mem_cons.mp hkv with h1 | h2
      · subst h1
        have hhd : P (k, hd.2) := by
          have hmem := hm hd (List.mem_cons_self hd t)
          rwa [show hd = (hd.1, hd.2) from rfl, hk] at hmem
        rw [hk]
        exact hf hd.2 hhd
      · exact hm kv (List.mem_cons_of_mem hd h2)
    · simp only [h, Bool.false_eq_true, if_neg, not_false_iff] at hkv
      rcases List.mem_cons.mp hkv with h1 | h2
      · subst h1; exact hm hd (List.mem_cons_self hd t)
      · exact ih (fun kv h => hm kv (List.mem_cons_of_mem hd h)) kv h2

theorem forall_insertA' {κ α : Type} [BEq κ] [LawfulBEq κ] {P : κ × α → Prop}
    (m : List (κ × α)) (k : κ) (v : α)
    (hm : ∀ kv ∈ m, P kv) (hv : P (k, v)) :
    ∀ kv ∈ insertA m k v, P kv := by
  induction m with
  | nil => intro kv hkv; simp [insertA] at hkv; subst hkv; exact hv
  | cons hd t ih =>
    intro kv hkv
    rw [insertA] at hkv
    by_cases h : hd.1 == k
    · simp only [h, if_pos] at hkv
      rcases List.mem_cons.mp hkv with h1 | h2
      · subst h1; exact hv
      · exact hm kv (List.mem_cons_of_mem hd h2)
    · simp only [h, Bool.false_eq_true, if_neg, not_false_iff] at hkv
      rcases List.mem_cons.mp hkv with h1 | h2
      · subst h1; exact hm hd (List.mem_cons_self hd t)
      · exact ih (fun kv h => hm kv (List.mem_cons_of_mem hd h)) kv h2

theorem pkgMeta_new (name : String) : pkgMeta (name, newPackageState name) := by
  simp [pkgMeta, newPackageState]

theorem pkgMeta_completionPkgUpd (a : String) (i : Bool) (k : String)
    {p : PackageState} (h1 : p.name = k) (h2 : 0 ≤ p.failed) :
    pkgMeta (k, completionPkgUpd a i p) := by
  rw [completionPkgUpd]
  split_ifs <;> simp only [pkgMeta] <;> exact ⟨h1, by omega⟩

/-- processBuildEvent preserves the bookkeeping invariant. -/
theorem processBuildEvent_metaInv (e : TestEvent) (s : Store)
    (hs : StoreMetaInv s) : StoreMetaInv (processBuildEvent e s) := by
  rw [processBuildEvent]
  split
  · exact hs
  · have hs1 : StoreMetaInv
        (if (lookupA s.packages (cutBefore e.importPath " [")).isSome then s
         else
           { s with
             packages :=
               insertA s.packages (cutBefore e.importPath " [")
                 (newPackageState (cutBefore e.importPath " [")) }) := by
      split
      · exact hs
      · exact forall_insertA' _ _ _ hs (pkgMeta_new _)
    split
    · intro kv hkv
      revert hkv
      simp only []
      split <;> intro hkv <;>
        refine forall_updateA' _ _ _ hs1 ?_ kv hkv <;>
        exact fun v hv => ⟨hv.1, hv.2⟩
    · split
      · intro kv hkv
        refine forall_updateA' _ _ _ hs1 ?_ kv hkv
        rintro v ⟨h1, h2⟩
        have h2' : 0 ≤ v.failed := h2
        exact ⟨h1, by simp only []; omega⟩
      · exact hs1

/-- processEvent preserves the bookkeeping invariant. -/
theorem processEvent_metaInv (e : TestEvent) (s s' : Store)
    (h : processEvent e s = some s') (hs : StoreMetaInv s) :
    StoreMetaInv s' := by
  rw [processEvent] at h
  split at h
  · injection h with h
    rw [← h]
    exact processBuildEvent_metaInv e s hs
  · have hs1 : StoreMetaInv
        (if (lookupA s.packages e.package).isNone && e.package != "" then
          { s with packages :=
              insertA s.packages e.package (newPackageState e.package) }
         else s) := by
      split
      · exact forall_insertA' _ _ _ hs (pkgMeta_new _)
      · exact hs
    set s₁ := (if (lookupA s.packages e.package).isNone && e.package != "" then
          { s with packages :=
              insertA s.packages e.package (newPackageState e.package) }
         else s) with hs₁def
    clear_value s₁
    split at h
    · rw [processTestEvent] at h
      split at h
      · split at h
        · injection h with h
          rw [← h]
          intro kv hkv
          simp only [markParentTestIfSubtest_packages, ensureTestResult_packages] at hkv
          refine forall_updateA' _ _ _ hs1 ?_ kv hkv
          rintro v ⟨h1, h2⟩
          exact ⟨h1, h2⟩
        · exact absurd h (by simp)
      · split at h
        · injection h with h
          rw [← h]
          intro kv hkv
          simp only [markParentTestIfSubtest_packages, ensureTestResult_packages] at hkv
          exact hs1 kv hkv
        · split at h
          · split at h
            · injection h with h
              rw [← h]
              intro kv hkv
              simp only [markParentTestIfSubtest_packages, ensureTestResult_packages] at hkv
              refine forall_updateA' _ _ _ hs1 ?_ kv hkv
              intro v hv
              exact pkgMeta_completionPkgUpd _ _ _ hv.1 hv.2
            · exact absurd h (by simp)
          · injection h with h
            rw [← h]
            intro kv hkv
            simp only [markParentTestIfSubtest_packages, ensureTestResult_packages] at hkv
            exact hs1 kv hkv
    · split at h
      · rw [processPackageEvent] at h
        split at h
        · exact absurd h (by simp)
        · rename_i pkg hlk
          have hpkg : pkgMeta (e.package, pkg) := by
            have hmem := lookupA_mem hlk
            exact hs1 _ hmem
          split at h
          · injection h with h
            rw [← h]
            intro kv hkv
            refine forall_updateA' _ _ _ hs1 ?_ kv hkv
            exact fun v hv => ⟨hv.1, hv.2⟩
          · split at h
            · injection h with h
              rw [← h]
              intro kv hkv
              refine forall_updateA' _ _ _ hs1 ?_ kv hkv
              exact fun v hv => ⟨hv.1, hv.2⟩
            · split at h
              · simp only [] at h
                split at h
                · injection h with h
                  rw [← h]
                  intro kv hkv
                  refine forall_updateA' _ _ _ ?_ ?_ kv hkv
                  · exact forall_updateA' _ _ _ hs1
                      (fun v _ => ⟨hpkg.1, hpkg.2⟩)
                  · rintro v ⟨h1, h2⟩
                    have h2' : 0 ≤ v.failed := h2
                    exact ⟨h1, by simp only []; omega⟩
                · injection h with h
                  rw [← h]
                  intro kv hkv
                  refine forall_updateA' _ _ _ hs1 ?_ kv hkv
                  exact fun v _ => ⟨hpkg.1, hpkg.2⟩
              · injection h with h
                rw [← h]
                exact hs1
      · injection h with h
        rw [← h]
        exact hs1

/-- The bookkeeping invariant holds of every store reached from an
invariant store. -/
theorem runEvents_metaInv (es : List TestEvent) (s s' : Store)
    (h : runEvents es s = some s') (hs : StoreMetaInv s) :
    StoreMetaInv s' := by
  induction es generalizing s with
  | nil => rw [runEvents] at h; injection h with h; rw [← h]; exact hs
  | cons e t ih =>
    rw [runEvents] at h
    cases hp : processEvent e s with
    | none => rw [hp] at h; exact absurd h (by simp)
    | some s₂ =>
      rw [hp] at h
      exact ih s₂ h (processEvent_metaInv e s s₂ hp hs)

theorem collectStep_totalFailed (rs : List (String × TestResult))
    (st : SummaryStats) (kv : String × PackageState) :
    (collectStep rs st kv).totalFailed = st.totalFailed + kv.2.failed := by
  rw [collectStep]
  simp only []
  split <;> split <;> rfl

theorem collectStep_hasFailures (rs : List (String × TestResult))
    (st : SummaryStats) (kv : String × PackageState) :
    (collectStep rs st kv).hasFailures =
      (st.hasFailures || (decide (kv.2.failed > 0) ||
        pkgFailDisplayed kv.2.name kv.2 rs)) := by
  rw [collectStep]
  simp only []
  split <;> split <;> rename_i h1 h2 <;> simp [h1, h2]

theorem collect_totalFailed (rs : List (String × TestResult)) :
    ∀ (ps : List (String × PackageState)) (st : SummaryStats),
      (ps.foldl (collectStep rs) st).totalFailed =
        st.totalFailed + (ps.map (fun kv => kv.2.failed)).sum := by
  intro ps
  induction ps with
  | nil => intro st; simp
  | cons hd t ih =>
    intro st
    rw [List.foldl_cons, ih, collectStep_totalFailed]
    simp only [List.map_cons, List.sum_cons]
    omega

theorem collect_hasFailures (rs : List (String × TestResult)) :
    ∀ (ps : List (String × PackageState)) (st : SummaryStats),
      (ps.foldl (collectStep rs) st).hasFailures =
        (st.hasFailures || ps.any (fun kv =>
          decide (kv.2.failed > 0) || pkgFailDisplayed kv.2.name kv.2 rs)) := by
  intro ps
  induction ps with
  | nil => intro st; simp
  | cons hd t ih =>
    intro st
    rw [List.foldl_cons, ih, collectStep_hasFailures]
    simp [Bool.or_assoc]

theorem displayPackageSummaryCode_le_one (k : String) (p : PackageState)
    (rs : List (String × TestResult)) :
    displayPackageSummaryCode k p rs = 0 ∨ displayPackageSummaryCode k p rs = 1 := by
  rw [displayPackageSummaryCode]
  split_ifs <;> simp

theorem displayPackageSummaryCode_of_displayed (k : String) (p : PackageState)
    (rs : List (String × TestResult)) (h : pkgFailDisplayed k p rs = true) :
    displayPackageSummaryCode k p rs = 1 := by
  rw [displayPackageSummaryCode]
  simp [h]

theorem exit_foldl (rs : List (String × TestResult)) :
    ∀ (ps : List (String × PackageState)) (ec : Nat),
      (ps.foldl (fun ec kv =>
        let code := displayPackageSummaryCode kv.1 kv.2 rs
        if code != 0 then code else ec) ec) =
      (if ps.any (fun kv => displayPackageSummaryCode kv.1 kv.2 rs != 0)
       then 1 else ec) := by
  intro ps
  induction ps with
  | nil => intro ec; simp
  | cons hd t ih =>
    intro ec
    rw [List.foldl_cons, ih, List.any_cons]
    by_cases h : displayPackageSummaryCode hd.1 hd.2 rs = 0
    · rw [h]
      rfl
    · have h1 : displayPackageSummaryCode hd.1 hd.2 rs = 1 := by
        rcases displayPackageSummaryCode_le_one hd.1 hd.2 rs with h0 | h0
        · exact absurd h0 h
        · exact h0
      rw [h1]
      split <;> rfl

theorem sumFailed_zero_iff (ps : List (String × PackageState))
    (h : ∀ kv ∈ ps, 0 ≤ kv.2.failed) :
    ((ps.map (fun kv => kv.2.failed)).sum = 0 ↔
      ps.any (fun kv => decide (kv.2.failed > 0)) = false) := by
  induction ps with
  | nil => simp
  | cons hd t ih =>
    have hh := h hd (List.mem_cons_self hd t)
    have ht : ∀ kv ∈ t, 0 ≤ kv.2.failed :=
      fun kv hkv => h kv (List.mem_cons_of_mem hd hkv)
    have hsum : 0 ≤ (t.map (fun kv => kv.2.failed)).sum := by
      refine List.sum_nonneg ?_
      intro x hx
      rcases List.mem_map.mp hx with ⟨kv, hkv, rfl⟩
      exact ht kv hkv
    simp only [List.map_cons, List.sum_cons, List.any_cons, Bool.or_eq_false_iff,
      decide_eq_false_iff_not, not_lt]
    rw [← ih ht]
    constructor
    · intro he
      exact ⟨by omega, by omega⟩
    · rintro ⟨h1, h2⟩
      omega

theorem any_congr_mem {α : Type} (l : List α) (p q : α → Bool)
    (h : ∀ a ∈ l, p a = q a) : l.any p = l.any q := by
  induction l with
  | nil => rfl
  | cons hd t ih =>
    rw [List.any_cons, List.any_cons, h hd (List.mem_cons_self hd t),
      ih (fun a ha => h a (List.mem_cons_of_mem hd ha))]

theorem any_or_split {α : Type} (l : List α) (p q : α → Bool) :
    l.any (fun x => p x || q x) = (l.any p || l.any q) := by
  induction l with
  | nil => rfl
  | cons hd t ih =>
    rw [List.any_cons, List.any_cons, List.any_cons, ih]
    cases p hd <;> cases q hd <;> simp

/-- The exit code of the final summary, characterised: 0 exactly when the
summed failed count is zero and no package classifies as a displayed
package failure (needs the bookkeeping invariant of reachable stores). -/
theorem showFinalResultsExit_eq_zero_iff
    (ps : List (String × PackageState)) (rs : List (String × TestResult))
    (hinv : ∀ kv ∈ ps, pkgMeta kv) :
    (showFinalResultsExit ps rs = 0 ↔
      ((ps.map (fun kv => kv.2.failed)).sum = 0 ∧
       ps.any (fun kv => pkgFailDisplayed kv.1 kv.2 rs) = false)) := by
  have hfail_nonneg : ∀ kv ∈ ps, 0 ≤ kv.2.failed := fun kv h => (hinv kv h).2
  have hsum_nonneg : 0 ≤ (ps.map (fun kv => kv.2.failed)).sum := by
    refine List.sum_nonneg ?_
    intro x hx
    rcases List.mem_map.mp hx with ⟨kv, hkv, rfl⟩
    exact hfail_nonneg kv hkv
  have hcomb : ps.any (fun kv =>
        decide (kv.2.failed > 0) || pkgFailDisplayed kv.2.name kv.2 rs)
      = (ps.any (fun kv => decide (kv.2.failed > 0)) ||
         ps.any (fun kv => pkgFailDisplayed kv.1 kv.2 rs)) := by
    rw [any_or_split]
    congr 1
    exact any_congr_mem ps _ _ (fun kv hkv => by rw [(hinv kv hkv).1])
  rw [showFinalResultsExit]
  simp only [collectSummaryStats]
  rw [exit_foldl]
  simp only [collect_totalFailed, collect_hasFailures, Bool.false_or, hcomb,
    zero_add]
  by_cases hAD : ps.any (fun kv => pkgFailDisplayed kv.1 kv.2 rs) = true
  · -- a displayed package failure forces exit code 1
    have hanycode : ps.any (fun kv =>
        displayPackageSummaryCode kv.1 kv.2 rs != 0) = true := by
      rcases List.any_eq_true.mp hAD with ⟨kv, hkv, hq⟩
      refine List.any_eq_true.mpr ⟨kv, hkv, ?_⟩
      rw [displayPackageSummaryCode_of_displayed kv.1 kv.2 rs hq]
      rfl
    rw [hAD, hanycode]
    constructor
    · intro hzero
      exfalso
      revert hzero
      simp
    · rintro ⟨-, hfalse⟩
      exact absurd hfalse (by simp)
  · rw [Bool.not_eq_true] at hAD
    rw [hAD]
    by_cases hSF : (ps.map (fun kv => kv.2.failed)).sum = 0
    · have hAF : ps.any (fun kv => decide (kv.2.failed > 0)) = false :=
        (sumFailed_zero_iff ps hfail_nonneg).mp hSF
      rw [hAF]
      constructor
      · intro _
        exact ⟨hSF, rfl⟩
      · intro _
        simp [hSF]
    · have hAF : ps.any (fun kv => decide (kv.2.failed > 0)) = true := by
        by_contra hb
        rw [Bool.not_eq_true] at hb
        exact hSF ((sumFailed_zero_iff ps hfail_nonneg).mpr hb)
      have hSFpos : (0:Int) < (ps.map (fun kv => kv.2.failed)).sum := by
        omega
      rw [hAF]
      constructor
      · intro hzero
        have hdec : decide ((ps.map (fun kv => kv.2.failed)).sum > 0) = true := by
          simpa using hSFpos
        rw [hdec, Bool.or_true] at hzero
        simp at hzero
      · rintro ⟨h1, -⟩
        exact absurd h1 hSF

/-- C6: exit code 0 iff the summed test-failure count is zero and no
displayable package failure occurred; otherwise (including the detected
not-structured-input condition) the exit code is 1. -/
theorem exit_code_contract_c6 :
    (∀ (decode : String → Option TestEvent) (lines : List String),
      (processInputModel decode lines).1 = true →
      runExitCode decode lines = some 1) ∧
    (∀ (decode : String → Option TestEvent) (lines : List String) (s : Store),
      (processInputModel decode lines).1 = false →
      runEvents (processInputModel decode lines).2 emptyStore = some s →
      (runExitCode decode lines = some 0 ↔
        ((s.packages.map (fun kv => kv.2.failed)).sum = 0 ∧
         s.packages.any (fun kv => pkgFailDisplayed kv.1 kv.2 s.results)
           = false))) := by
  constructor
  · intro decode lines h
    rw [runExitCode]
    simp only [h, if_true]
  · intro decode lines s h hrun
    have hmeta : StoreMetaInv s :=
      runEvents_metaInv _ emptyStore s hrun
        (by intro kv hkv; simp [emptyStore] at hkv)
    rw [runExitCode]
    simp only [h, Bool.false_eq_true, if_false, hrun]
    rw [Option.some_inj]
    exact showFinalResultsExit_eq_zero_iff s.packages s.results hmeta

/-- Witness for C6: a clean one-test run exits 0. -/
theorem exit_code_contract_c6_witness :
    runExitCode okDecode ["r", "ps"] = some 0 :=
  (exit_code_contract_c6.2 okDecode ["r", "ps"] c6SampleStore rfl rfl).mpr
    (by decide)

theorem lookupA_insertA_ne {κ α : Type} [BEq κ] [LawfulBEq κ]
    (m : List (κ × α)) (k k' : κ) (v : α) (h : k' ≠ k) :
    lookupA (insertA m k v) k' = lookupA m k' := by
  induction m with
  | nil =>
    have hb : (k == k') = false := by
      simp only [beq_eq_false_iff_ne, ne_eq]
      exact fun he => h he.symm
    simp [insertA, lookupA, hb]
  | cons hd t ih =>
    rw [insertA]
    split
    · rename_i hk
      have h1 : hd.1 = k := by simpa using hk
      have hb : (k == k') = false := by
        simp only [beq_eq_false_iff_ne, ne_eq]
        exact fun he => h he.symm
      rw [lookupA, lookupA, h1, hb]
      simp
    · rw [lookupA, lookupA]
      by_cases hk' : (hd.1 == k') = true
      · simp [hk']
      · rw [Bool.not_eq_true] at hk'
        rw [hk']
        simp only [Bool.false_eq_true, if_false]
        exact ih

theorem footprint_refl (s : HStore) : MapsFootprint s s :=
  ⟨rfl, rfl, fun _ _ _ => rfl⟩

theorem footprint_trans {s₁ s₂ s₃ : HStore}
    (h12 : MapsFootprint s₁ s₂) (h23 : MapsFootprint s₂ s₃) :
    MapsFootprint s₁ s₃ := by
  refine ⟨h23.1.trans h12.1, h23.2.1.trans h12.2.1, ?_⟩
  intro a h1 h2
  have e1 : a ≠ s₂.resultsAddr := by rw [h12.1]; exact h1
  have e2 : a ≠ s₂.packagesAddr := by rw [h12.2.1]; exact h2
  exact (h23.2.2 a e1 e2).trans (h12.2.2 a h1 h2)

theorem footprint_hUpdR (s : HStore) (a : Nat) (f : TestResult → TestResult) :
    MapsFootprint s (hUpdR s a f) := ⟨rfl, rfl, fun _ _ _ => rfl⟩

theorem footprint_hUpdP (s : HStore) (a : Nat) (f : PackageState → PackageState) :
    MapsFootprint s (hUpdP s a f) := ⟨rfl, rfl, fun _ _ _ => rfl⟩

theorem footprint_hAllocR (s : HStore) (v : TestResult) :
    MapsFootprint s (hAllocR s v).2 := ⟨rfl, rfl, fun _ _ _ => rfl⟩

theorem footprint_hAllocP (s : HStore) (v : PackageState) :
    MapsFootprint s (hAllocP s v).2 := ⟨rfl, rfl, fun _ _ _ => rfl⟩

theorem footprint_setFlag (s : HStore) (b : Bool) :
    MapsFootprint s { s with hasTestsStarted := b } :=
  ⟨rfl, rfl, fun _ _ _ => rfl⟩

theorem footprint_hPutResultsKey (s : HStore) (k : String) (a : Nat) :
    MapsFootprint s (hPutResultsKey s k a) :=
  ⟨rfl, rfl, fun _ h1 _ => lookupA_insertA_ne _ _ _ _ h1⟩

theorem footprint_hPutPackagesKey (s : HStore) (k : String) (a : Nat) :
    MapsFootprint s (hPutPackagesKey s k a) :=
  ⟨rfl, rfl, fun _ _ h2 => lookupA_insertA_ne _ _ _ _ h2⟩

theorem footprint_hEnsureTestResult (key : String) (e : TestEvent) (s : HStore) :
    MapsFootprint s (hEnsureTestResult key e s).2 := by
  rw [hEnsureTestResult]
  cases lookupA (hResultsMap s) key with
  | some a => exact footprint_refl s
  | none =>
    exact footprint_trans (footprint_hAllocR s _) (footprint_hPutResultsKey _ _ _)

theorem footprint_hMarkParent (e : TestEvent) (s : HStore) :
    MapsFootprint s (hMarkParent e s) := by
  rw [hMarkParent]
  split
  · simp only []
    split
    · exact footprint_hUpdR s _ _
    · exact footprint_refl s
  · exact footprint_refl s

theorem footprint_hProcessTestEvent (e : TestEvent) (s s' : HStore)
    (h : hProcessTestEvent e s = some s') : MapsFootprint s s' := by
  rw [hProcessTestEvent] at h
  simp only [] at h
  have base : MapsFootprint s
      (hMarkParent e (hEnsureTestResult (e.package ++ "/" ++ e.test) e s).2) :=
    footprint_trans (footprint_hEnsureTestResult _ e s) (footprint_hMarkParent e _)
  split at h
  · split at h
    · exact absurd h (by simp)
    · injection h with h
      rw [← h]
      exact footprint_trans base (footprint_trans (footprint_hUpdR _ _ _)
        (footprint_trans (footprint_hUpdP _ _ _) (footprint_setFlag _ _)))
  · split at h
    · injection h with h
      rw [← h]
      exact footprint_trans base (footprint_hUpdR _ _ _)
    · split at h
      · split at h
        · exact absurd h (by simp)
        · injection h with h
          rw [← h]
          exact footprint_trans base (footprint_trans (footprint_hUpdR _ _ _)
            (footprint_hUpdP _ _ _))
      · injection h with h
        rw [← h]
        exact base

theorem footprint_hProcessPackageEvent (e : TestEvent) (s s' : HStore)
    (h : hProcessPackageEvent e s = some s') : MapsFootprint s s' := by
  rw [hProcessPackageEvent] at h
  split at h
  · exact absurd h (by simp)
  · rename_i pa hpa
    split at h
    · injection h with h
      rw [← h]
      exact footprint_hUpdP _ _ _
    · split at h
      · injection h with h
        rw [← h]
        exact footprint_hUpdP _ _ _
      · split at h
        · simp only [] at h
          split at h
          · injection h with h
            rw [← h]
            exact footprint_trans (footprint_hUpdP _ _ _)
              (footprint_trans (footprint_hAllocR _ _)
                (footprint_trans (footprint_hPutResultsKey _ _ _)
                  (footprint_hUpdP _ _ _)))
          · injection h with h
            rw [← h]
            exact footprint_trans (footprint_hUpdP _ _ _)
              (footprint_trans (footprint_hAllocR _ _)
                (footprint_hPutResultsKey _ _ _))
        · injection h with h
          rw [← h]
          exact footprint_refl s

theorem footprint_hProcessBuildEvent (e : TestEvent) (s : HStore) :
    MapsFootprint s (hProcessBuildEvent e s) := by
  rw [hProcessBuildEvent]
  split
  · exact footprint_refl s
  · have hinit : MapsFootprint s
        (match lookupA (hPackagesMap s) (cutBefore e.importPath " [") with
         | some _ => s
         | none =>
           let av := hAllocP s (newPackageState (cutBefore e.importPath " ["))
           hPutPackagesKey av.2 (cutBefore e.importPath " [") av.1) := by
      cases lookupA (hPackagesMap s) (cutBefore e.importPath " [") with
      | some a => exact footprint_refl s
      | none =>
        exact footprint_trans (footprint_hAllocP s _) (footprint_hPutPackagesKey _ _ _)
    split
    · -- build-output
      simp only []
      split
      · exact footprint_trans hinit
          (footprint_trans (footprint_hUpdP _ _ _) (footprint_hUpdR _ _ _))
      · exact footprint_trans hinit
          (footprint_trans (footprint_hUpdP _ _ _)
            (footprint_trans (footprint_hAllocR _ _)
              (footprint_trans (footprint_hPutResultsKey _ _ _)
                (footprint_hUpdR _ _ _))))
    · split
      · exact footprint_trans hinit (footprint_hUpdP _ _ _)
      · exact hinit

theorem footprint_hProcessEvent (e : TestEvent) (s s' : HStore)
    (h : hProcessEvent e s = some s') : MapsFootprint s s' := by
  rw [hProcessEvent] at h
  split at h
  · injection h with h
    rw [← h]
    exact footprint_hProcessBuildEvent e s
  · have hinit : MapsFootprint s
        (if (lookupA (hPackagesMap s) e.package).isNone && e.package != "" then
          let av := hAllocP s (newPackageState e.package)
          hPutPackagesKey av.2 e.package av.1
         else s) := by
      split
      · exact footprint_trans (footprint_hAllocP s _) (footprint_hPutPackagesKey _ _ _)
      · exact footprint_refl s
    set s₁ := (if (lookupA (hPackagesMap s) e.package).isNone && e.package != "" then
          let av := hAllocP s (newPackageState e.package)
          hPutPackagesKey av.2 e.package av.1
         else s) with hs₁
    clear_value s₁
    split at h
    · exact footprint_trans hinit (footprint_hProcessTestEvent e s₁ s' h)
    · split at h
      · exact footprint_trans hinit (footprint_hProcessPackageEvent e s₁ s' h)
      · injection h with h
        rw [← h]
        exact hinit

/-! ## Claims C1 and C9: snapshot semantics -/

/-- C1 as amended: a snapshot returned by GetResults/GetPackages is
insulated at the map level only — a subsequent ProcessEvent never touches
the key-to-pointer table of the snapshot (which is a fresh copy of the
internal map) — while the pointed-to TestResult/PackageState objects
remain shared, so field mutations performed by later events ARE observable
through an earlier snapshot (see the counterexample). -/
theorem snapshot_insulation_c1_amended (s : HStore) (hwf : HWF s)
    (e : TestEvent) :
    (lookupA (hGetResults s).2.maps (hGetResults s).1 = some (hResultsMap s) ∧
     ∀ s₂, hProcessEvent e (hGetResults s).2 = some s₂ →
       lookupA s₂.maps (hGetResults s).1
         = lookupA (hGetResults s).2.maps (hGetResults s).1) ∧
    (lookupA (hGetPackages s).2.maps (hGetPackages s).1 = some (hPackagesMap s) ∧
     ∀ s₂, hProcessEvent e (hGetPackages s).2 = some s₂ →
       lookupA s₂.maps (hGetPackages s).1
         = lookupA (hGetPackages s).2.maps (hGetPackages s).1) := by
  obtain ⟨hr, hp, -⟩ := hwf
  constructor
  · constructor
    · exact lookupA_insertA_self _ _ _
    · intro s₂ h2
      have hf := footprint_hProcessEvent e _ _ h2
      refine hf.2.2 s.nextAddr ?_ ?_
      · show s.nextAddr ≠ (hGetResults s).2.resultsAddr
        simp only [hGetResults]
        omega
      · show s.nextAddr ≠ (hGetResults s).2.packagesAddr
        simp only [hGetResults]
        omega
  · constructor
    · exact lookupA_insertA_self _ _ _
    · intro s₂ h2
      have hf := footprint_hProcessEvent e _ _ h2
      refine hf.2.2 s.nextAddr ?_ ?_
      · show s.nextAddr ≠ (hGetPackages s).2.resultsAddr
        simp only [hGetPackages]
        omega
      · show s.nextAddr ≠ (hGetPackages s).2.packagesAddr
        simp only [hGetPackages]
        omega

/-- Counterexample for C1 as stated: the TestResult for p/T observed
THROUGH THE PREVIOUSLY RETURNED SNAPSHOT changes when a later ProcessEvent
appends output — GetResults copies only the top-level map and shares the
pointed-to objects, so snapshots are not deep. -/
theorem snapshot_insulation_c1_counterexample :
    hProcessEvent (mkEv "output" "p" "T" "hello") c1Store2 = some c1Store3 ∧
    (hObserveResult c1Store2 c1SnapAddr "p/T").map TestResult.output
      = some [] ∧
    (hObserveResult c1Store3 c1SnapAddr "p/T").map TestResult.output
      = some ["hello"] := by decide

/-- Witness for the amended C1 theorem: the snapshot map object taken from
c1Store1 is untouched by the subsequent output event. -/
theorem snapshot_insulation_c1_amended_witness :
    lookupA c1Store3.maps c1SnapAddr = lookupA c1Store2.maps c1SnapAddr :=
  ((snapshot_insulation_c1_amended c1Store1 ⟨by decide, by decide, by decide⟩
      (mkEv "output" "p" "T" "hello")).1).2 c1Store3 (by decide)

/-- C9: the top-level maps returned by GetResults/GetPackages are freshly
allocated — replacing the contents of a returned snapshot map by ANY other
contents c (covering insertion, overwrite and deletion) changes neither
internal map, and a later snapshot still exhibits the original key set. -/
theorem snapshot_map_freshness_c9 (s : HStore) (hwf : HWF s)
    (c : List (String × Nat)) :
    (hResultsMap { (hGetResults s).2 with
        maps := insertA (hGetResults s).2.maps (hGetResults s).1 c }
      = hResultsMap s ∧
     hPackagesMap { (hGetResults s).2 with
        maps := insertA (hGetResults s).2.maps (hGetResults s).1 c }
      = hPackagesMap s ∧
     (lookupA
        (hGetResults { (hGetResults s).2 with
          maps := insertA (hGetResults s).2.maps (hGetResults s).1 c }).2.maps
        (hGetResults { (hGetResults s).2 with
          maps := insertA (hGetResults s).2.maps (hGetResults s).1 c }).1)
      = some (hResultsMap s)) ∧
    (hResultsMap { (hGetPackages s).2 with
        maps := insertA (hGetPackages s).2.maps (hGetPackages s).1 c }
      = hResultsMap s ∧
     hPackagesMap { (hGetPackages s).2 with
        maps := insertA (hGetPackages s).2.maps (hGetPackages s).1 c }
      = hPackagesMap s ∧
     (lookupA
        (hGetPackages { (hGetPackages s).2 with
          maps := insertA (hGetPackages s).2.maps (hGetPackages s).1 c }).2.maps
        (hGetPackages { (hGetPackages s).2 with
          maps := insertA (hGetPackages s).2.maps (hGetPackages s).1 c }).1)
      = some (hPackagesMap s)) := by
  obtain ⟨hr, hp, -⟩ := hwf
  have hrn : s.resultsAddr ≠ s.nextAddr := by omega
  have hpn : s.packagesAddr ≠ s.nextAddr := by omega
  have h1 : hResultsMap { (hGetResults s).2 with
      maps := insertA (hGetResults s).2.maps (hGetResults s).1 c }
      = hResultsMap s := by
    simp only [hResultsMap, hGetResults]
    rw [lookupA_insertA_ne _ _ _ _ hrn, lookupA_insertA_ne _ _ _ _ hrn]
  have h2 : hPackagesMap { (hGetResults s).2 with
      maps := insertA (hGetResults s).2.maps (hGetResults s).1 c }
      = hPackagesMap s := by
    simp only [hPackagesMap, hGetResults]
    rw [lookupA_insertA_ne _ _ _ _ hpn, lookupA_insertA_ne _ _ _ _ hpn]
  have h3 : hResultsMap { (hGetPackages s).2 with
      maps := insertA (hGetPackages s).2.maps (hGetPackages s).1 c }
      = hResultsMap s := by
    simp only [hResultsMap, hGetPackages]
    rw [lookupA_insertA_ne _ _ _ _ hrn, lookupA_insertA_ne _ _ _ _ hrn]
  have h4 : hPackagesMap { (hGetPackages s).2 with
      maps := insertA (hGetPackages s).2.maps (hGetPackages s).1 c }
      = hPackagesMap s := by
    simp only [hPackagesMap, hGetPackages]
    rw [lookupA_insertA_ne _ _ _ _ hpn, lookupA_insertA_ne _ _ _ _ hpn]
  refine ⟨⟨h1, h2, ?_⟩, ⟨h3, h4, ?_⟩⟩
  · rw [show (hGetResults { (hGetResults s).2 with
        maps := insertA (hGetResults s).2.maps (hGetResults s).1 c }).2.maps
      = insertA ({ (hGetResults s).2 with
          maps := insertA (hGetResults s).2.maps (hGetResults s).1 c } : HStore).maps
          (({ (hGetResults s).2 with
          maps := insertA (hGetResults s).2.maps (hGetResults s).1 c } : HStore).nextAddr)
          (hResultsMap { (hGetResults s).2 with
            maps := insertA (hGetResults s).2.maps (hGetResults s).1 c })
      from rfl]
    rw [show (hGetResults { (hGetResults s).2 with
        maps := insertA (hGetResults s).2.maps (hGetResults s).1 c }).1
      = ({ (hGetResults s).2 with
        maps := insertA (hGetResults s).2.maps (hGetResults s).1 c } : HStore).nextAddr
      from rfl]
    rw [lookupA_insertA_self, h1]
  · rw [show (hGetPackages { (hGetPackages s).2 with
        maps := insertA (hGetPackages s).2.maps (hGetPackages s).1 c }).2.maps
      = insertA ({ (hGetPackages s).2 with
          maps := insertA (hGetPackages s).2.maps (hGetPackages s).1 c } : HStore).maps
          (({ (hGetPackages s).2 with
          maps := insertA (hGetPackages s).2.maps (hGetPackages s).1 c } : HStore).nextAddr)
          (hPackagesMap { (hGetPackages s).2 with
            maps := insertA (hGetPackages s).2.maps (hGetPackages s).1 c })
      from rfl]
    rw [show (hGetPackages { (hGetPackages s).2 with
        maps := insertA (hGetPackages s).2.maps (hGetPackages s).1 c }).1
      = ({ (hGetPackages s).2 with
        maps := insertA (hGetPackages s).2.maps (hGetPackages s).1 c } : HStore).nextAddr
      from rfl]
    rw [lookupA_insertA_self, h4]

/-- Witness for C9 at the empty processor with an arbitrary mutation. -/
theorem snapshot_map_freshness_c9_witness :
    hResultsMap { (hGetResults hEmpty).2 with
      maps := insertA (hGetResults hEmpty).2.maps (hGetResults hEmpty).1
        [("x", 7)] } = hResultsMap hEmpty :=
  ((snapshot_map_freshness_c9 hEmpty ⟨by decide, by decide, by decide⟩
      [("x", 7)]).1).1

end GoTestShow
